import Mathlib

/-!
Verification development for the liboqs PQC benchmark statistics core.

The Python sources are shallowly embedded:
* floating point sample values are modelled as exact rationals (`ℚ`);
* `math.sqrt` / the square root inside `statistics.stdev` is modelled by an
  explicit function parameter `sq : ℚ → ℚ`, since the claims never depend on
  its numeric value;
* code that raises an exception is modelled with `Option`/`Except`;
* `sorted(...)` (a stable sort of rationals) is modelled by
  `List.insertionSort (· ≤ ·)`: on values any two sorted permutations of the
  same list are equal, so the model agrees with Python's timsort.

Namespaces mirror the source files:
`CollectMem` = benchmark/collect_mem_massif.py,
`RunAllMem` = benchmark/run_all_mem_bench.py,
`SpeedKem` = benchmark/run_speed_kem_benchmark.py.
-/

/-- Python `sorted` on a list of float values. -/
def pySorted (l : List ℚ) : List ℚ :=
  l.insertionSort (· ≤ ·)

/-- `statistics.mean`, which raises `StatisticsError` on an empty list
(modelled as `none`). -/
def pyMean (l : List ℚ) : Option ℚ :=
  if l.isEmpty then none else some (l.sum / (l.length : ℚ))

/-- The exact sample variance (Bessel-corrected, divisor `n - 1`) computed
inside `statistics.stdev`; `stdev` itself is `sq (sampleVariance l)` for the
square-root model `sq`.  Only called on lists with at least two elements. -/
def sampleVariance (l : List ℚ) : ℚ :=
  let n : ℚ := l.length
  let m : ℚ := l.sum / n
  (l.map (fun x => (x - m) ^ 2)).sum / (n - 1)

/-- The list comprehension `[v for v, keep in zip(lst, mask) if keep]`. -/
def zipKeep (l : List ℚ) (mask : List Bool) : List ℚ :=
  ((l.zip mask).filter (fun vk => vk.2)).map (fun vk => vk.1)

/-- A `{mean, std, ci_low, ci_high}` summary dictionary. -/
structure CIStat where
  mean : ℚ
  std : ℚ
  ci_low : ℚ
  ci_high : ℚ
deriving DecidableEq, Repr

namespace CollectMem

/-- The body of the `table` dict in `collect_mem_massif.t_critical_95`. -/
def tTable : List (ℤ × ℚ) :=
  [(2, 4.303), (3, 3.182), (4, 2.776), (5, 2.571), (6, 2.447), (7, 2.365),
   (8, 2.306), (9, 2.262), (10, 2.228), (11, 2.201), (12, 2.179), (13, 2.160),
   (14, 2.145), (15, 2.131), (16, 2.120), (17, 2.110), (18, 2.101), (19, 2.093),
   (20, 2.086), (21, 2.080), (22, 2.074), (23, 2.069), (24, 2.064), (25, 2.060),
   (26, 2.056), (27, 2.052), (28, 2.048), (29, 2.045), (30, 2.042)]

/-- `collect_mem_massif.t_critical_95`: two-tailed 95% t critical value. -/
def t_critical_95 (df : ℤ) : ℚ :=
  if df ≤ 1 then 0
  else
    match tTable.lookup df with
    | some t => t
    | none => if df ≤ 40 then 2.021 else if df ≤ 60 then 2 else 1.960

/-- `collect_mem_massif.summary_with_ci`: mean, sample std and a 95%
t-Student confidence interval.  `sq` models the float square root used by
`statistics.stdev` and by `n ** 0.5`; `none` models the `StatisticsError`
raised by `statistics.mean` on an empty list. -/
def summary_with_ci (sq : ℚ → ℚ) (values : List ℚ) : Option CIStat :=
  (pyMean values).map (fun mean =>
    let n := values.length
    if n < 2 then ⟨mean, 0, mean, mean⟩
    else
      let s := sq (sampleVariance values)
      let df : ℤ := (n : ℤ) - 1
      let t := t_critical_95 df
      let margin := t * s / sq (n : ℚ)
      ⟨mean, s, mean - margin, mean + margin⟩)

/-- `statistics.quantiles(values, n=4, method="inclusive")`: the three
quartiles of the sorted data with inclusive (R-7, linear) interpolation.
Returns `[]` for fewer than two data points (`StatisticsError`, never reached
from `iqr_mask`, which requires at least four values). -/
def quantilesInc (values : List ℚ) : List ℚ :=
  let data := pySorted values
  let ld := data.length
  if ld < 2 then []
  else
    let m := ld - 1
    (List.range 3).map (fun i0 =>
      let i := i0 + 1
      let j := (i * m) / 4
      let delta := (i * m) % 4
      (data.getD j 0 * ((4 - delta : ℕ) : ℚ) + data.getD (j + 1) 0 * (delta : ℚ)) / 4)

/-- First quartile used by `iqr_mask` (`qs[0]`). -/
def q1Of (values : List ℚ) : ℚ := (quantilesInc values).getD 0 0

/-- Third quartile used by `iqr_mask` (`qs[2]`). -/
def q3Of (values : List ℚ) : ℚ := (quantilesInc values).getD 2 0

/-- The interquartile range `q3 - q1` computed by `iqr_mask`. -/
def iqrOf (values : List ℚ) : ℚ := q3Of values - q1Of values

/-- `collect_mem_massif.iqr_mask`: boolean mask of the values that are NOT
IQR outliers. -/
def iqr_mask (values : List ℚ) : List Bool :=
  if values.length < 4 then List.replicate values.length true
  else
    let q1 := q1Of values
    let q3 := q3Of values
    let iqr := q3 - q1
    let lower := q1 - 1.5 * iqr
    let upper := q3 + 1.5 * iqr
    values.map (fun v => decide (lower ≤ v ∧ v ≤ upper))

/-- Character-level model of Python `str.splitlines` restricted to the
newline character: a trailing newline does not produce a final empty line and
the empty text has no lines. -/
def splitLinesAux : List Char → List Char → List (List Char)
  | [], acc => if acc.isEmpty then [] else [acc.reverse]
  | '\n' :: rest, acc => acc.reverse :: splitLinesAux rest []
  | ch :: rest, acc => splitLinesAux rest (ch :: acc)

/-- `ms_output.splitlines()`. -/
def pySplitlines (s : String) : List (List Char) :=
  splitLinesAux s.toList []

/-- Numeric value of a digit string. -/
def natOfDigits (ds : List Char) : ℕ :=
  ds.foldl (fun a ch => 10 * a + (ch.toNat - '0'.toNat)) 0

/-- Try to match the regex `(\d+)\s+\(peak\)` at the start of `cs`,
returning the captured number. -/
def matchPeakAt (cs : List Char) : Option ℕ :=
  let ds := cs.takeWhile Char.isDigit
  if ds.isEmpty then none
  else
    let r1 := cs.dropWhile Char.isDigit
    let ws := r1.takeWhile Char.isWhitespace
    if ws.isEmpty then none
    else
      let r2 := r1.dropWhile Char.isWhitespace
      if ("(peak)".toList).isPrefixOf r2 then some (natOfDigits ds) else none

/-- `re.search(r"(\d+)\s+\(peak\)", line)`: the leftmost match. -/
def searchPeak : List Char → Option ℕ
  | [] => none
  | ch :: cs =>
    match matchPeakAt (ch :: cs) with
    | some k => some k
    | none => searchPeak cs

/-- The header prefix `" Detailed snapshots: ["` scanned for by
`parse_ms_print_output`. -/
def detailedPfx : List Char := (" Detailed snapshots: [").toList

/-- The first loop of `parse_ms_print_output`: find which snapshot index is
marked as the peak (`peak_index` stays `-1`, i.e. `none`, when no header line
yields a regex match). -/
def findPeakIndex : List (List Char) → Option ℕ
  | [] => none
  | l :: ls =>
    if detailedPfx.isPrefixOf l then
      match searchPeak l with
      | some k => some k
      | none => findPeakIndex ls
    else findPeakIndex ls

/-- `f"{peak_index:>3d}"`: the decimal digits right-justified to width 3. -/
def fmtRJ3 (k : ℕ) : List Char :=
  let s := (toString k).toList
  List.replicate (3 - s.length) ' ' ++ s

/-- Python `str.split()` with no separator: split on whitespace runs,
discarding empty fields. -/
def pySplitWsAux : List Char → List Char → List (List Char)
  | [], acc => if acc.isEmpty then [] else [acc.reverse]
  | ch :: rest, acc =>
    if ch.isWhitespace then
      if acc.isEmpty then pySplitWsAux rest []
      else acc.reverse :: pySplitWsAux rest []
    else pySplitWsAux rest (ch :: acc)

/-- `line.replace(",", "").split()`. -/
def pyTokens (cs : List Char) : List (List Char) :=
  pySplitWsAux (cs.filter (fun ch => ch != ',')) []

/-- Python `int(token)` on a whitespace-free token: an optional sign followed
by decimal digits (`none` models the `ValueError`; underscore grouping,
which never occurs in ms_print output, is not modelled). -/
def pyInt (tok : List Char) : Option ℤ :=
  match tok with
  | '-' :: ds =>
    if !ds.isEmpty && ds.all Char.isDigit then some (-(natOfDigits ds : ℤ)) else none
  | '+' :: ds =>
    if !ds.isEmpty && ds.all Char.isDigit then some ((natOfDigits ds : ℤ)) else none
  | ds =>
    if !ds.isEmpty && ds.all Char.isDigit then some ((natOfDigits ds : ℤ)) else none

/-- `collect_mem_massif.parse_ms_print_output`: extract
`(insts, maxBytes, maxHeap, extHeap, maxStack)` from the peak snapshot row of
an `ms_print` report.  Every `raise` (and the `ValueError` of `int`) is
modelled as `Except.error`, so a failure can never carry a partial tuple. -/
def parse_ms_print_output (ms_output : String) : Except String (ℤ × ℤ × ℤ × ℤ × ℤ) :=
  let lines := pySplitlines ms_output
  match findPeakIndex lines with
  | none => Except.error "peak snapshot not located in ms_print output"
  | some peakIndex =>
    match lines.find? (fun l => (fmtRJ3 peakIndex).isPrefixOf l) with
    | none => Except.error "peak snapshot line not found in ms_print output"
    | some peakLine =>
      let tokens := pyTokens peakLine
      if tokens.length < 6 then Except.error "unexpected snapshot line format"
      else
        match pyInt (tokens.getD 1 []), pyInt (tokens.getD 2 []), pyInt (tokens.getD 3 []),
              pyInt (tokens.getD 4 []), pyInt (tokens.getD 5 []) with
        | some insts, some maxBytes, some maxHeap, some extHeap, some maxStack =>
          Except.ok (insts, maxBytes, maxHeap, extHeap, maxStack)
        | _, _, _, _, _ => Except.error "non-integer token in snapshot line"

/-- One `(algorithm, operation)` row of `collect_mem_massif.main` after
outlier filtering (source lines 411-425). -/
structure MemAggRow where
  n_raw : ℕ
  n_filt : ℕ
  insts_f : List ℚ
  maxBytes_f : List ℚ
  maxHeap_f : List ℚ
  extHeap_f : List ℚ
  maxStack_f : List ℚ
deriving DecidableEq, Repr

/-- The filtering step of `collect_mem_massif.main` for one
`(algorithm, operation)`: the mask is computed from the `maxBytes` list, the
`n_filt < 3` guard resets it to all-true, and the same mask is applied to
every metric list. -/
def memRow (insts maxBytes maxHeap extHeap maxStack : List ℚ) : MemAggRow :=
  let n_raw := insts.length
  let mask0 := iqr_mask maxBytes
  let nf0 := mask0.countP (fun b => b)
  let mask := if nf0 < 3 then List.replicate n_raw true else mask0
  let n_filt := if nf0 < 3 then n_raw else nf0
  ⟨n_raw, n_filt, zipKeep insts mask, zipKeep maxBytes mask, zipKeep maxHeap mask,
    zipKeep extHeap mask, zipKeep maxStack mask⟩

/-- The retention mask that `main` actually applies, as a function of the
reference metric `maxBytes` alone (under the equal-lengths invariant `n_raw =
len(maxBytes_vals)`). -/
def applied_mask (maxBytes : List ℚ) : List Bool :=
  let mask0 := iqr_mask maxBytes
  if mask0.countP (fun b => b) < 3 then List.replicate maxBytes.length true else mask0

end CollectMem

namespace RunAllMem

/-- The body of the `table` dict in `run_all_mem_bench.t_critical_95`
(a verbatim copy of the one in collect_mem_massif.py). -/
def tTable : List (ℤ × ℚ) :=
  [(2, 4.303), (3, 3.182), (4, 2.776), (5, 2.571), (6, 2.447), (7, 2.365),
   (8, 2.306), (9, 2.262), (10, 2.228), (11, 2.201), (12, 2.179), (13, 2.160),
   (14, 2.145), (15, 2.131), (16, 2.120), (17, 2.110), (18, 2.101), (19, 2.093),
   (20, 2.086), (21, 2.080), (22, 2.074), (23, 2.069), (24, 2.064), (25, 2.060),
   (26, 2.056), (27, 2.052), (28, 2.048), (29, 2.045), (30, 2.042)]

/-- `run_all_mem_bench.t_critical_95` (copied in the source from
collect_mem_massif.py). -/
def t_critical_95 (df : ℤ) : ℚ :=
  if df ≤ 1 then 0
  else
    match tTable.lookup df with
    | some t => t
    | none => if df ≤ 40 then 2.021 else if df ≤ 60 then 2 else 1.960

/-- `run_all_mem_bench.iqr_mask` (copied in the source from
collect_mem_massif.py). -/
def iqr_mask (values : List ℚ) : List Bool :=
  if values.length < 4 then List.replicate values.length true
  else
    let q1 := CollectMem.q1Of values
    let q3 := CollectMem.q3Of values
    let iqr := q3 - q1
    let lower := q1 - 1.5 * iqr
    let upper := q3 + 1.5 * iqr
    values.map (fun v => decide (lower ≤ v ∧ v ≤ upper))

/-- The per-key filtering step of `run_all_mem_bench.aggregate_mem_results`
(source lines 218-234): identical to the one in `collect_mem_massif.main`
except that `n_raw` is taken from the `maxBytes` list. -/
def aggRow (insts maxBytes maxHeap extHeap maxStack : List ℚ) : CollectMem.MemAggRow :=
  let n_raw := maxBytes.length
  let mask0 := iqr_mask maxBytes
  let nf0 := mask0.countP (fun b => b)
  let mask := if nf0 < 3 then List.replicate n_raw true else mask0
  let n_filt := if nf0 < 3 then n_raw else nf0
  ⟨n_raw, n_filt, zipKeep insts mask, zipKeep maxBytes mask, zipKeep maxHeap mask,
    zipKeep extHeap mask, zipKeep maxStack mask⟩

/-- `os.path.splitext(...)[0]` on a plain file name with an extension: drop
everything from the last dot on (a name without a dot is returned whole; the
leading-dot special case of `splitext` never occurs for these artifacts). -/
def splitextBase (cs : List Char) : List Char :=
  if '.' ∈ cs then ((cs.reverse.dropWhile (fun ch => ch ≠ '.')).drop 1).reverse
  else cs

/-- The paired JSON metadata name `base + ".json"` that
`aggregate_mem_results` deletes alongside a consumed CSV. -/
def jsonPair (f : String) : String :=
  String.mk (splitextBase f.toList) ++ ".json"

/-- Outcome of one `aggregate_mem_results` pass over the results directory. -/
structure AggResult where
  warnedNoCsv : Bool
  warnedFewer : Bool
  wrote : Bool
  usedFiles : List String
  dirAfter : List String
deriving Repr

/-- File-lifecycle model of `run_all_mem_bench.aggregate_mem_results`
(source lines 142-157 and 270-293).  `dir` is the listing of the results
directory, `csvFiles` the `prefix*.csv` glob matches already sorted most
recent first, `finalName` the timestamped name of the aggregated CSV.  With
no matching CSV it warns and returns without writing; otherwise it uses the
`numRuns` most recent files (all of them, with a warning, when fewer exist),
writes the final CSV, and then deletes every consumed CSV together with its
paired JSON when present (`List.erase` of an absent name is a no-op, like the
`os.path.exists` guard).  Deletion failures (`OSError`) are not modelled:
this is the successful pass. -/
def aggregate_mem_results (dir csvFiles : List String) (numRuns : ℕ)
    (finalName : String) : AggResult :=
  if csvFiles.isEmpty then ⟨true, false, false, [], dir⟩
  else
    let used := csvFiles.take numRuns
    let warnedFewer := used.length < numRuns
    let dir1 := dir ++ [finalName]
    let dirAfter := used.foldl (fun d f => (d.erase f).erase (jsonPair f)) dir1
    ⟨false, warnedFewer, true, used, dirAfter⟩

end RunAllMem

namespace SpeedKem

/-- `run_speed_kem_benchmark.percentile` on an already sorted list: linear
interpolation between the two neighbouring order statistics.  `float("nan")`
on an empty list is modelled as the junk value `0` (the only caller sorts a
list of at least four values first). -/
def percentile (sorted_vals : List ℚ) (p : ℚ) : ℚ :=
  if sorted_vals.isEmpty then 0
  else if sorted_vals.length = 1 then sorted_vals.getD 0 0
  else
    let k : ℚ := ((sorted_vals.length : ℚ) - 1) * (p / 100)
    let f : ℤ := ⌊k⌋
    let c : ℤ := ⌈k⌉
    if f = c then sorted_vals.getD (⌊k⌋).toNat 0
    else sorted_vals.getD f.toNat 0 * ((c : ℚ) - k) + sorted_vals.getD c.toNat 0 * (k - (f : ℚ))

/-- First quartile computed by `iqr_filter_indices`. -/
def sq1Of (values : List ℚ) : ℚ := percentile (pySorted values) 25

/-- Third quartile computed by `iqr_filter_indices`. -/
def sq3Of (values : List ℚ) : ℚ := percentile (pySorted values) 75

/-- The interquartile range `q3 - q1` computed by `iqr_filter_indices`. -/
def iqrOf (values : List ℚ) : ℚ := sq3Of values - sq1Of values

/-- The `iqr != 0` tail of `run_speed_kem_benchmark.iqr_filter_indices`
(quartiles, degenerate check, bounds, and the kept-index comprehension
`[i for i, v in enumerate(values) if lower <= v <= upper]`). -/
def iqrKeepList (values : List ℚ) : List ℕ :=
  let q1 := sq1Of values
  let q3 := sq3Of values
  let iqr := q3 - q1
  if iqr = 0 then List.range values.length
  else
    let lower := q1 - 1.5 * iqr
    let upper := q3 + 1.5 * iqr
    (List.range values.length).filter
      (fun i => decide (lower ≤ values.getD i 0 ∧ values.getD i 0 ≤ upper))

/-- `run_speed_kem_benchmark.iqr_filter_indices`: the list of indices of the
samples kept by the IQR rule. -/
def iqr_filter_indices (values : List ℚ) : List ℕ :=
  if values.length < 4 then List.range values.length else iqrKeepList values

/-- The `T_CRIT_95` dict of run_speed_kem_benchmark.py. -/
def T_CRIT_95 : List (ℤ × ℚ) :=
  [(1, 12.706), (2, 4.303), (3, 3.182), (4, 2.776), (5, 2.571), (6, 2.447),
   (7, 2.365), (8, 2.306), (9, 2.262), (10, 2.228), (11, 2.201), (12, 2.179),
   (13, 2.160), (14, 2.145), (15, 2.131), (16, 2.120), (17, 2.110), (18, 2.101),
   (19, 2.093), (20, 2.086), (21, 2.080), (22, 2.074), (23, 2.069), (24, 2.064),
   (25, 2.060), (26, 2.056), (27, 2.052), (28, 2.048), (29, 2.045), (30, 2.042)]

/-- `run_speed_kem_benchmark.t_crit_95`.  The `float("nan")` returned for
`df <= 0` is modelled as the junk value `0`; every call site guarantees
`df >= 1`. -/
def t_crit_95 (df : ℤ) : ℚ :=
  if df ≤ 0 then 0
  else
    match T_CRIT_95.lookup df with
    | some t => t
    | none => 1.96

/-- The per-`(algorithm, operation)` filtering step of
`run_speed_kem_benchmark.run_benchmarks` (source lines 174-184): the kept
indices are computed from the `time_us` list, reset to everything only when
empty, and the same index list selects from every metric list. -/
structure SpeedRow where
  n_raw : ℕ
  n_used : ℕ
  keep : List ℕ
  time_f : List ℚ
  cycles_f : List ℚ
  iterations_f : List ℚ
  total_time_f : List ℚ
deriving DecidableEq, Repr

/-- The index list that `run_benchmarks` actually applies, as a function of
the reference metric `time_vals` alone. -/
def applied_keep (time_vals : List ℚ) : List ℕ :=
  let keep0 := iqr_filter_indices time_vals
  if keep0.isEmpty then List.range time_vals.length else keep0

/-- Lines 174-184 of `run_benchmarks`: filter every metric list of one key by
the kept indices of the `time_us` reference list. -/
def speedRow (time_vals cycles_vals it_vals tt_vals : List ℚ) : SpeedRow :=
  let n_raw := time_vals.length
  let keep0 := iqr_filter_indices time_vals
  let keep := if keep0.isEmpty then List.range n_raw else keep0
  let n := keep.length
  ⟨n_raw, n, keep,
    keep.map (fun i => time_vals.getD i 0),
    keep.map (fun i => cycles_vals.getD i 0),
    keep.map (fun i => it_vals.getD i 0),
    keep.map (fun i => tt_vals.getD i 0)⟩

/-- Lines 185-206 of `run_benchmarks` for one metric list: mean, std and the
95% confidence bounds (`sq` models the float square root of
`statistics.stdev` and `math.sqrt(n)`).  For a single kept sample the std is
0 and both bounds collapse to the mean. -/
def speedStat (sq : ℚ → ℚ) (vals : List ℚ) : CIStat :=
  let n := vals.length
  let m : ℚ := vals.sum / (n : ℚ)
  if 1 < n then
    let s := sq (sampleVariance vals)
    let tcrit := t_crit_95 ((n : ℤ) - 1)
    let se := s / sq (n : ℚ)
    ⟨m, s, m - tcrit * se, m + tcrit * se⟩
  else ⟨m, 0, m, m⟩

end SpeedKem

/-! ## Helper lemmas -/

theorem zipKeep_replicate_true (l : List ℚ) :
    zipKeep l (List.replicate l.length true) = l := by
  induction l with
  | nil => rfl
  | cons a t ih =>
    simp only [List.length_cons, List.replicate_succ, zipKeep, List.zip_cons_cons,
      List.filter_cons] at *
    simpa using ih

theorem zipKeep_length (l : List ℚ) (mask : List Bool) (h : l.length = mask.length) :
    (zipKeep l mask).length = mask.countP (fun b => b) := by
  induction l generalizing mask with
  | nil =>
    cases mask with
    | nil => rfl
    | cons b bs => simp at h
  | cons a t ih =>
    cases mask with
    | nil => simp at h
    | cons b bs =>
      have h' : t.length = bs.length := by simpa using h
      cases b with
      | false =>
        have e1 : zipKeep (a :: t) (false :: bs) = zipKeep t bs := by
          simp [zipKeep]
        rw [e1, ih bs h', List.countP_cons]
        simp
      | true =>
        have e1 : zipKeep (a :: t) (true :: bs) = a :: zipKeep t bs := by
          simp [zipKeep]
        rw [e1, List.length_cons, ih bs h', List.countP_cons]
        simp

theorem countP_true_replicate (n : ℕ) :
    (List.replicate n true).countP (fun b => b) = n := by
  simp [List.countP_replicate]

theorem iqr_mask_length (values : List ℚ) :
    (CollectMem.iqr_mask values).length = values.length := by
  unfold CollectMem.iqr_mask
  split <;> simp

theorem runAll_iqr_mask_eq : RunAllMem.iqr_mask = CollectMem.iqr_mask := rfl

theorem runAll_tcrit_eq : RunAllMem.t_critical_95 = CollectMem.t_critical_95 := rfl

theorem filterRangeCount (l : List ℚ) (p : ℚ → Bool) :
    ((List.range l.length).filter (fun i => p (l.getD i 0))).length = l.countP p := by
  induction l with
  | nil => rfl
  | cons a t ih =>
    rw [List.length_cons, List.range_succ_eq_map, List.filter_cons]
    have hmap : (List.filter (fun i => p ((a :: t).getD i 0)) (List.map Nat.succ (List.range t.length))) =
        List.map Nat.succ (List.filter (fun i => p (t.getD i 0)) (List.range t.length)) := by
      rw [List.filter_map]
      rfl
    by_cases hpa : p a = true
    · rw [if_pos (by simpa using hpa), List.length_cons, hmap, List.length_map, ih,
        List.countP_cons, if_pos hpa]
    · rw [if_neg (by simpa using hpa), hmap, List.length_map, ih,
        List.countP_cons, if_neg hpa]
      omega

theorem mapGetDRange (l : List ℚ) :
    (List.range l.length).map (fun i => l.getD i 0) = l := by
  induction l with
  | nil => rfl
  | cons a t ih =>
    rw [List.length_cons, List.range_succ_eq_map, List.map_cons, List.map_map]
    refine congrArg (a :: ·) ?_
    exact ih

theorem sorted_getD_mono {sv : List ℚ} (hs : List.Sorted (· ≤ ·) sv) {i j : ℕ}
    (hij : i ≤ j) (hj : j < sv.length) : sv.getD i 0 ≤ sv.getD j 0 := by
  have hi : i < sv.length := lt_of_le_of_lt hij hj
  rw [List.getD_eq_getElem sv 0 hi, List.getD_eq_getElem sv 0 hj]
  have := hs.rel_get_of_le (a := ⟨i, hi⟩) (b := ⟨j, hj⟩) hij
  simpa using this

theorem three_le_countP (l : List ℚ) (p : ℚ → Bool) (i j k : ℕ)
    (hij : i < j) (hjk : j < k) (hk : k < l.length)
    (hpi : p (l.getD i 0) = true) (hpj : p (l.getD j 0) = true)
    (hpk : p (l.getD k 0) = true) : 3 ≤ l.countP p := by
  rw [← filterRangeCount]
  have hsub : [i, j, k] ⊆ (List.range l.length).filter (fun t => p (l.getD t 0)) := by
    intro x hx
    simp only [List.mem_cons, List.not_mem_nil, or_false] at hx
    rcases hx with rfl | rfl | rfl <;>
      simp only [List.mem_filter, List.mem_range] <;>
      exact ⟨by omega, by assumption⟩
  have hnd : ([i, j, k] : List ℕ).Nodup := by
    simp only [List.nodup_cons, List.mem_cons, List.not_mem_nil, or_false,
      List.nodup_cons, List.not_mem_nil, not_false_iff, List.nodup_nil, and_true]
    omega
  have := (List.subperm_of_subset hnd hsub).length_le
  simpa using this

theorem ceil_as_floor (a : ℚ) : (⌈a⌉ : ℤ) = -⌊-a⌋ := by
  rw [Int.floor_neg, neg_neg]

theorem percentile_four_25 (a b c d : ℚ) :
    SpeedKem.percentile [a, b, c, d] 25 = a * (1/4) + b * (3/4) := by
  norm_num only [SpeedKem.percentile, ceil_as_floor,
    List.getD_cons_zero, List.getD_cons_succ, List.isEmpty_cons,
    List.length_cons, List.length_nil, Nat.cast_ofNat, if_false, ite_false,
    if_true, ite_true, Bool.false_eq_true]
  simp only [Int.reduceToNat, List.getD_cons_zero, List.getD_cons_succ]
  try ring

theorem percentile_four_75 (a b c d : ℚ) :
    SpeedKem.percentile [a, b, c, d] 75 = c * (3/4) + d * (1/4) := by
  norm_num only [SpeedKem.percentile, ceil_as_floor,
    List.getD_cons_zero, List.getD_cons_succ, List.isEmpty_cons,
    List.length_cons, List.length_nil, Nat.cast_ofNat, if_false, ite_false,
    if_true, ite_true, Bool.false_eq_true]
  simp only [Int.reduceToNat, List.getD_cons_zero, List.getD_cons_succ]
  try ring

theorem percentile_five_25 (a b c d e : ℚ) :
    SpeedKem.percentile [a, b, c, d, e] 25 = b := by
  norm_num only [SpeedKem.percentile, ceil_as_floor,
    List.getD_cons_zero, List.getD_cons_succ, List.isEmpty_cons,
    List.length_cons, List.length_nil, Nat.cast_ofNat, if_false, ite_false,
    if_true, ite_true, Bool.false_eq_true]
  simp only [Int.reduceToNat, List.getD_cons_zero, List.getD_cons_succ]
  try ring

theorem percentile_five_75 (a b c d e : ℚ) :
    SpeedKem.percentile [a, b, c, d, e] 75 = d := by
  norm_num only [SpeedKem.percentile, ceil_as_floor,
    List.getD_cons_zero, List.getD_cons_succ, List.isEmpty_cons,
    List.length_cons, List.length_nil, Nat.cast_ofNat, if_false, ite_false,
    if_true, ite_true, Bool.false_eq_true]
  simp only [Int.reduceToNat, List.getD_cons_zero, List.getD_cons_succ]
  try ring

theorem percentile_six_25 (a b c d e f : ℚ) :
    SpeedKem.percentile [a, b, c, d, e, f] 25 = b * (3/4) + c * (1/4) := by
  norm_num only [SpeedKem.percentile, ceil_as_floor,
    List.getD_cons_zero, List.getD_cons_succ, List.isEmpty_cons,
    List.length_cons, List.length_nil, Nat.cast_ofNat, if_false, ite_false,
    if_true, ite_true, Bool.false_eq_true]
  simp only [Int.reduceToNat, List.getD_cons_zero, List.getD_cons_succ]
  try ring

theorem percentile_six_75 (a b c d e f : ℚ) :
    SpeedKem.percentile [a, b, c, d, e, f] 75 = d * (1/4) + e * (3/4) := by
  norm_num only [SpeedKem.percentile, ceil_as_floor,
    List.getD_cons_zero, List.getD_cons_succ, List.isEmpty_cons,
    List.length_cons, List.length_nil, Nat.cast_ofNat, if_false, ite_false,
    if_true, ite_true, Bool.false_eq_true]
  simp only [Int.reduceToNat, List.getD_cons_zero, List.getD_cons_succ]
  try ring

/-! ## Claim C1 -/

/-- C1 counterexample: the claim says the critical-value lookup returns
`2.021` for `df = 45`, but at that input the memory-flavor lookup
(`collect_mem_massif.t_critical_95`) returns `2.000` and the speed-flavor
lookup (`run_speed_kem_benchmark.t_crit_95`) returns `1.96`. -/
theorem claim_C1_counterexample :
    CollectMem.t_critical_95 45 = 2 ∧ SpeedKem.t_crit_95 45 = 1.96 ∧
    CollectMem.t_critical_95 45 ≠ 2.021 ∧ SpeedKem.t_crit_95 45 ≠ 2.021 := by
  have h1 : CollectMem.t_critical_95 45 = 2 := rfl
  have h2 : SpeedKem.t_crit_95 45 = 1.96 := rfl
  refine ⟨h1, h2, ?_, ?_⟩
  · rw [h1]; norm_num
  · rw [h2]; norm_num

/-- C1 (amended): for `df` in `[2, 30]` both lookups return the fixed table
entry (in particular `4.303` for `df = 2` and `2.042` for `df = 30`); for
`df = 45` the memory-flavor lookup returns `2.000` and the speed-flavor
lookup `1.96`; for `df = 100` both return `1.960`. -/
theorem claim_C1_theorem :
    (∀ df : ℤ, 2 ≤ df → df ≤ 30 →
      CollectMem.t_critical_95 df = SpeedKem.t_crit_95 df) ∧
    CollectMem.t_critical_95 2 = 4.303 ∧ CollectMem.t_critical_95 30 = 2.042 ∧
    CollectMem.t_critical_95 45 = 2 ∧ SpeedKem.t_crit_95 45 = 1.96 ∧
    CollectMem.t_critical_95 100 = 1.960 ∧ SpeedKem.t_crit_95 100 = 1.96 := by
  refine ⟨?_, rfl, rfl, rfl, rfl, rfl, rfl⟩
  intro df h2 h30
  interval_cases df <;> rfl

/-- C1 witness: the amended table-agreement clause discharged at `df = 17`. -/
theorem claim_C1_witness :
    CollectMem.t_critical_95 17 = SpeedKem.t_crit_95 17 :=
  claim_C1_theorem.1 17 (by norm_num) (by norm_num)

/-! ## Claim C2 -/

/-- C2 counterexample: `[1, 1, 1, 1, 1, 100]` has six samples and inclusive
interquartile range `q3 - q1 = 1 - 1 = 0`, yet the memory-flavor
`iqr_mask` (which has no `iqr == 0` fallback) masks out `100` instead of
keeping every value. -/
theorem claim_C2_counterexample :
    CollectMem.iqrOf [1, 1, 1, 1, 1, 100] = 0 ∧
    CollectMem.iqr_mask [1, 1, 1, 1, 1, 100] = [true, true, true, true, true, false] ∧
    CollectMem.iqr_mask [1, 1, 1, 1, 1, 100] ≠ List.replicate 6 true := by
  have hq : CollectMem.quantilesInc [1, 1, 1, 1, 1, 100] = [1, 1, 1] := by
    norm_num [CollectMem.quantilesInc, pySorted, List.insertionSort, List.orderedInsert,
      List.range_succ]
  have hmask : CollectMem.iqr_mask [1, 1, 1, 1, 1, 100] =
      [true, true, true, true, true, false] := by
    norm_num [CollectMem.iqr_mask, CollectMem.q1Of, CollectMem.q3Of, hq]
  refine ⟨?_, hmask, ?_⟩
  · norm_num [CollectMem.iqrOf, CollectMem.q1Of, CollectMem.q3Of, hq]
  · rw [hmask]
    simp [List.replicate]

/-- C2 (amended): with at least 4 samples and zero interquartile range, the
speed-flavor filter (`iqr_filter_indices`, which checks `iqr == 0`) keeps
every index, but the memory-flavor `iqr_mask` keeps exactly the values equal
to the degenerate quartile `q1 = q3` — all-true only when every value equals
`q1`. -/
theorem claim_C2_theorem :
    (∀ values : List ℚ, 4 ≤ values.length → SpeedKem.iqrOf values = 0 →
      SpeedKem.iqr_filter_indices values = List.range values.length) ∧
    (∀ values : List ℚ, 4 ≤ values.length → CollectMem.iqrOf values = 0 →
      CollectMem.iqr_mask values =
        values.map (fun v => decide (v = CollectMem.q1Of values))) := by
  constructor
  · intro values h4 hiqr
    have hiqr' : SpeedKem.sq3Of values - SpeedKem.sq1Of values = 0 := hiqr
    simp only [SpeedKem.iqr_filter_indices, SpeedKem.iqrKeepList]
    rw [if_neg (by omega), if_pos hiqr']
  · intro values h4 hiqr
    have hq : CollectMem.q3Of values = CollectMem.q1Of values := by
      have h0 : CollectMem.q3Of values - CollectMem.q1Of values = 0 := hiqr
      linarith
    simp only [CollectMem.iqr_mask]
    rw [if_neg (by omega)]
    rw [hq, sub_self, mul_zero, sub_zero, add_zero]
    refine List.map_congr_left ?_
    intro v _
    rw [decide_eq_decide]
    constructor
    · intro hv
      exact le_antisymm hv.2 hv.1
    · intro hv
      rw [hv]
      exact ⟨le_rfl, le_rfl⟩

/-- C2 witness: the amended clauses discharged at `[5, 5, 5, 5]` (speed
flavor) and `[1, 1, 1, 1, 1, 100]` (memory flavor), both with zero IQR. -/
theorem claim_C2_witness :
    SpeedKem.iqr_filter_indices [5, 5, 5, 5] = List.range 4 ∧
    CollectMem.iqr_mask [1, 1, 1, 1, 1, 100] =
      [1, 1, 1, 1, 1, 100].map (fun v => decide (v = CollectMem.q1Of [1, 1, 1, 1, 1, 100])) := by
  constructor
  · have h := claim_C2_theorem.1 [5, 5, 5, 5] (by norm_num) ?_
    · simpa using h
    · have hs : pySorted [5, 5, 5, 5] = [5, 5, 5, 5] := by
        norm_num [pySorted, List.insertionSort, List.orderedInsert]
      have h25 : SpeedKem.sq1Of [5, 5, 5, 5] = 5 := by
        rw [SpeedKem.sq1Of, hs, percentile_four_25]
        norm_num
      have h75 : SpeedKem.sq3Of [5, 5, 5, 5] = 5 := by
        rw [SpeedKem.sq3Of, hs, percentile_four_75]
        norm_num
      rw [SpeedKem.iqrOf, h25, h75, sub_self]
  · refine claim_C2_theorem.2 [1, 1, 1, 1, 1, 100] (by norm_num) ?_
    have hq : CollectMem.quantilesInc [1, 1, 1, 1, 1, 100] = [1, 1, 1] := by
      norm_num [CollectMem.quantilesInc, pySorted, List.insertionSort, List.orderedInsert,
        List.range_succ]
    norm_num [CollectMem.iqrOf, CollectMem.q1Of, CollectMem.q3Of, hq]

/-! ## Claim C8 -/

theorem findPeakIndex_eq_none (L : List (List Char))
    (h : ∀ l ∈ L, ¬(CollectMem.detailedPfx.isPrefixOf l = true ∧
        (CollectMem.searchPeak l).isSome = true)) :
    CollectMem.findPeakIndex L = none := by
  induction L with
  | nil => rfl
  | cons l ls ih =>
    have hl := h l (List.mem_cons_self l ls)
    have hls : ∀ x ∈ ls, ¬(CollectMem.detailedPfx.isPrefixOf x = true ∧
        (CollectMem.searchPeak x).isSome = true) :=
      fun x hx => h x (List.mem_cons_of_mem l hx)
    unfold CollectMem.findPeakIndex
    by_cases hp : CollectMem.detailedPfx.isPrefixOf l = true
    · rw [if_pos hp]
      cases hsp : CollectMem.searchPeak l with
      | none => exact ih hls
      | some k =>
        exact absurd ⟨hp, by rw [hsp]; rfl⟩ hl
    · rw [if_neg hp]
      exact ih hls

/-- C8: a profiler report text with no line that both starts with the
detailed-snapshots header and matches the `(peak)` regex makes
`parse_ms_print_output` fail with the peak-not-found error; the `Except`
result carries no partial measurement tuple. -/
theorem claim_C8_theorem (ms_output : String)
    (h : ∀ l ∈ CollectMem.pySplitlines ms_output,
      ¬(CollectMem.detailedPfx.isPrefixOf l = true ∧
        (CollectMem.searchPeak l).isSome = true)) :
    CollectMem.parse_ms_print_output ms_output =
      Except.error "peak snapshot not located in ms_print output" := by
  unfold CollectMem.parse_ms_print_output
  simp only [findPeakIndex_eq_none _ h]

/-- C8 witness: a two-line report with no peak marker. -/
theorem claim_C8_witness :
    CollectMem.parse_ms_print_output "command: ./test_kem_mem\ntime unit: i" =
      Except.error "peak snapshot not located in ms_print output" :=
  claim_C8_theorem "command: ./test_kem_mem\ntime unit: i" (by decide)

/-! ## Claim C3 -/
theorem percentile_between {sv : List ℚ} (hs : List.Sorted (· ≤ ·) sv)
    (h2 : 2 ≤ sv.length) (p : ℚ)
    (hk0 : 0 ≤ ((sv.length : ℚ) - 1) * (p / 100))
    (hcn : (⌈((sv.length : ℚ) - 1) * (p / 100)⌉).toNat < sv.length) :
    sv.getD (⌊((sv.length : ℚ) - 1) * (p / 100)⌋).toNat 0 ≤ SpeedKem.percentile sv p ∧
    SpeedKem.percentile sv p ≤ sv.getD (⌈((sv.length : ℚ) - 1) * (p / 100)⌉).toNat 0 := by
  have hne : ¬(sv.isEmpty = true) := by
    rw [List.isEmpty_iff]
    intro h
    rw [h] at h2
    simp at h2
  have hone : ¬(sv.length = 1) := by omega
  unfold SpeedKem.percentile
  rw [if_neg hne, if_neg hone]
  set k : ℚ := ((sv.length : ℚ) - 1) * (p / 100) with hk
  have hfc : ⌊k⌋ ≤ ⌈k⌉ := Int.floor_le_ceil k
  have hf0 : 0 ≤ ⌊k⌋ := Int.floor_nonneg.2 hk0
  have htn : (⌊k⌋).toNat ≤ (⌈k⌉).toNat := Int.toNat_le_toNat hfc
  have hmono : sv.getD (⌊k⌋).toNat 0 ≤ sv.getD (⌈k⌉).toNat 0 :=
    sorted_getD_mono hs htn hcn
  by_cases heq : ⌊k⌋ = ⌈k⌉
  · rw [if_pos heq]
    constructor
    · exact le_rfl
    · rw [heq]
  · rw [if_neg heq]
    have hcf : ⌈k⌉ = ⌊k⌋ + 1 := by
      have := Int.ceil_le_floor_add_one k
      omega
    have hw1 : (0 : ℚ) ≤ (⌈k⌉ : ℚ) - k := by
      have := Int.le_ceil k
      linarith
    have hw2 : (0 : ℚ) ≤ k - (⌊k⌋ : ℚ) := by
      have := Int.floor_le k
      linarith
    have hsum : ((⌈k⌉ : ℚ) - k) + (k - (⌊k⌋ : ℚ)) = 1 := by
      rw [hcf]
      push_cast
      ring
    constructor
    · have hm := mul_le_mul_of_nonneg_right hmono hw2
      have hA : sv.getD (⌊k⌋).toNat 0 * ((⌈k⌉ : ℚ) - k) +
          sv.getD (⌊k⌋).toNat 0 * (k - (⌊k⌋ : ℚ)) = sv.getD (⌊k⌋).toNat 0 := by
        rw [← mul_add, hsum, mul_one]
      linarith [hm, hA]
    · have hm := mul_le_mul_of_nonneg_right hmono hw1
      have hB : sv.getD (⌈k⌉).toNat 0 * ((⌈k⌉ : ℚ) - k) +
          sv.getD (⌈k⌉).toNat 0 * (k - (⌊k⌋ : ℚ)) = sv.getD (⌈k⌉).toNat 0 := by
        rw [← mul_add, hsum, mul_one]
      linarith [hm, hB]

theorem band_kept (sv : List ℚ) (q1 q3 : ℚ) (hs : List.Sorted (· ≤ ·) sv)
    (h7 : 7 ≤ sv.length) (hq1 : q1 = SpeedKem.percentile sv 25)
    (hq3 : q3 = SpeedKem.percentile sv 75) :
    3 ≤ sv.countP (fun v =>
      decide (q1 - 1.5 * (q3 - q1) ≤ v ∧ v ≤ q3 + 1.5 * (q3 - q1))) := by
  have hnq : (7 : ℚ) ≤ (sv.length : ℚ) := by exact_mod_cast h7
  have hk1 : (0 : ℚ) ≤ ((sv.length : ℚ) - 1) * (25 / 100) := by nlinarith
  have hk3 : (0 : ℚ) ≤ ((sv.length : ℚ) - 1) * (75 / 100) := by nlinarith
  have hc1le : ⌈((sv.length : ℚ) - 1) * (25 / 100)⌉ ≤ (sv.length : ℤ) - 1 := by
    rw [Int.ceil_le]
    push_cast
    nlinarith
  have hc3le : ⌈((sv.length : ℚ) - 1) * (75 / 100)⌉ ≤ (sv.length : ℤ) - 1 := by
    rw [Int.ceil_le]
    push_cast
    nlinarith
  have hf3le : ⌊((sv.length : ℚ) - 1) * (75 / 100)⌋ ≤ (sv.length : ℤ) - 1 :=
    le_trans (Int.floor_le_ceil _) hc3le
  have hc10 : 0 ≤ ⌈((sv.length : ℚ) - 1) * (25 / 100)⌉ := Int.ceil_nonneg hk1
  have hf30 : 0 ≤ ⌊((sv.length : ℚ) - 1) * (75 / 100)⌋ := Int.floor_nonneg.2 hk3
  have hcn1 : (⌈((sv.length : ℚ) - 1) * (25 / 100)⌉).toNat < sv.length := by omega
  have hcn3 : (⌈((sv.length : ℚ) - 1) * (75 / 100)⌉).toNat < sv.length := by omega
  have hb25 := percentile_between hs (by omega) 25 hk1 hcn1
  have hb75 := percentile_between hs (by omega) 75 hk3 hcn3
  have hga : (⌈((sv.length : ℚ) - 1) * (25 / 100)⌉ : ℚ) <
      ((sv.length : ℚ) - 1) * (25 / 100) + 1 := Int.ceil_lt_add_one _
  have hgb : ((sv.length : ℚ) - 1) * (75 / 100) - 1 <
      (⌊((sv.length : ℚ) - 1) * (75 / 100)⌋ : ℚ) := Int.sub_one_lt_floor _
  have hgapQ : (⌈((sv.length : ℚ) - 1) * (25 / 100)⌉ : ℚ) + 1 <
      (⌊((sv.length : ℚ) - 1) * (75 / 100)⌋ : ℚ) := by nlinarith
  have hgapZ : ⌈((sv.length : ℚ) - 1) * (25 / 100)⌉ + 2 ≤
      ⌊((sv.length : ℚ) - 1) * (75 / 100)⌋ := by
    have h := hgapQ
    have h' : (⌈((sv.length : ℚ) - 1) * (25 / 100)⌉ + 1 : ℤ) <
        ⌊((sv.length : ℚ) - 1) * (75 / 100)⌋ := by exact_mod_cast h
    omega
  set i1 := (⌈((sv.length : ℚ) - 1) * (25 / 100)⌉).toNat with hi1
  set i3 := (⌊((sv.length : ℚ) - 1) * (75 / 100)⌋).toNat with hi3
  have hi13 : i1 + 2 ≤ i3 := by omega
  have hi3n : i3 < sv.length := by omega
  have hmq1 : q1 ≤ sv.getD i1 0 := hq1 ▸ hb25.2
  have hmq3 : sv.getD i3 0 ≤ q3 := hq3 ▸ hb75.1
  have hiqr : q1 ≤ q3 := by
    calc q1 ≤ sv.getD i1 0 := hmq1
    _ ≤ sv.getD i3 0 := sorted_getD_mono hs (by omega) hi3n
    _ ≤ q3 := hmq3
  have hkeep : ∀ j, i1 ≤ j → j ≤ i3 →
      (fun v => decide (q1 - 1.5 * (q3 - q1) ≤ v ∧ v ≤ q3 + 1.5 * (q3 - q1)))
        (sv.getD j 0) = true := by
    intro j hj1 hj3
    refine decide_eq_true ⟨?_, ?_⟩
    · have h1 : sv.getD i1 0 ≤ sv.getD j 0 :=
        sorted_getD_mono hs hj1 (by omega)
      nlinarith
    · have h2 : sv.getD j 0 ≤ sv.getD i3 0 :=
        sorted_getD_mono hs hj3 hi3n
      nlinarith
  exact three_le_countP sv _ i1 (i1 + 1) (i1 + 2) (by omega) (by omega) (by omega)
    (hkeep i1 le_rfl (by omega)) (hkeep (i1 + 1) (by omega) (by omega))
    (hkeep (i1 + 2) (by omega) hi13)

theorem list_len_four {l : List ℚ} (h : l.length = 4) :
    ∃ a b c d, l = [a, b, c, d] := by
  rcases l with _ | ⟨a, l⟩; · simp at h
  rcases l with _ | ⟨b, l⟩; · simp at h
  rcases l with _ | ⟨c, l⟩; · simp at h
  rcases l with _ | ⟨d, l⟩; · simp at h
  rcases l with _ | ⟨e, l⟩
  · exact ⟨a, b, c, d, rfl⟩
  · simp at h

theorem list_len_five {l : List ℚ} (h : l.length = 5) :
    ∃ a b c d e, l = [a, b, c, d, e] := by
  rcases l with _ | ⟨a, l⟩; · simp at h
  obtain ⟨b, c, d, e, hl⟩ := list_len_four (by simpa using h)
  exact ⟨a, b, c, d, e, by rw [hl]⟩

theorem list_len_six {l : List ℚ} (h : l.length = 6) :
    ∃ a b c d e f, l = [a, b, c, d, e, f] := by
  rcases l with _ | ⟨a, l⟩; · simp at h
  obtain ⟨b, c, d, e, f, hl⟩ := list_len_five (by simpa using h)
  exact ⟨a, b, c, d, e, f, by rw [hl]⟩

theorem small_kept_four (sv : List ℚ) (q1 q3 : ℚ) (hs : List.Sorted (· ≤ ·) sv)
    (hlen : sv.length = 4) (hq1 : q1 = SpeedKem.percentile sv 25)
    (hq3 : q3 = SpeedKem.percentile sv 75) :
    3 ≤ sv.countP (fun v =>
      decide (q1 - 1.5 * (q3 - q1) ≤ v ∧ v ≤ q3 + 1.5 * (q3 - q1))) := by
  obtain ⟨a, b, c, d, rfl⟩ := list_len_four hlen
  rw [percentile_four_25] at hq1
  rw [percentile_four_75] at hq3
  simp only [List.sorted_cons, List.mem_cons, List.not_mem_nil, or_false,
    List.mem_singleton, forall_eq_or_imp, forall_eq, List.sorted_nil, and_true,
    List.not_mem_nil, IsEmpty.forall_iff, implies_true] at hs
  obtain ⟨⟨hab, hac, had⟩, ⟨hbc, hbd⟩, hcd⟩ := hs
  have h15 : (1.5 : ℚ) = 3/2 := by norm_num
  by_cases hlow : q1 - 1.5 * (q3 - q1) ≤ a
  · refine three_le_countP _ _ 0 1 2 (by omega) (by omega) (by norm_num)
      (decide_eq_true ⟨hlow, ?_⟩) (decide_eq_true ⟨?_, ?_⟩)
      (decide_eq_true ⟨?_, ?_⟩) <;>
      simp only [List.getD_cons_zero, List.getD_cons_succ] <;>
      rw [h15] at * <;> linarith
  · push_neg at hlow
    refine three_le_countP _ _ 1 2 3 (by omega) (by omega) (by norm_num)
      (decide_eq_true ⟨?_, ?_⟩) (decide_eq_true ⟨?_, ?_⟩)
      (decide_eq_true ⟨?_, ?_⟩) <;>
      simp only [List.getD_cons_zero, List.getD_cons_succ] <;>
      rw [h15] at * <;> linarith

theorem small_kept_five (sv : List ℚ) (q1 q3 : ℚ) (hs : List.Sorted (· ≤ ·) sv)
    (hlen : sv.length = 5) (hq1 : q1 = SpeedKem.percentile sv 25)
    (hq3 : q3 = SpeedKem.percentile sv 75) :
    3 ≤ sv.countP (fun v =>
      decide (q1 - 1.5 * (q3 - q1) ≤ v ∧ v ≤ q3 + 1.5 * (q3 - q1))) := by
  obtain ⟨a, b, c, d, e, rfl⟩ := list_len_five hlen
  rw [percentile_five_25] at hq1
  rw [percentile_five_75] at hq3
  simp only [List.sorted_cons, List.mem_cons, List.not_mem_nil, or_false,
    List.mem_singleton, forall_eq_or_imp, forall_eq, List.sorted_nil, and_true,
    IsEmpty.forall_iff, implies_true] at hs
  obtain ⟨⟨hab, hac, had, hae⟩, ⟨hbc, hbd, hbe⟩, ⟨hcd, hce⟩, hde⟩ := hs
  have h15 : (1.5 : ℚ) = 3/2 := by norm_num
  refine three_le_countP _ _ 1 2 3 (by omega) (by omega) (by norm_num)
    (decide_eq_true ⟨?_, ?_⟩) (decide_eq_true ⟨?_, ?_⟩)
    (decide_eq_true ⟨?_, ?_⟩) <;>
    simp only [List.getD_cons_zero, List.getD_cons_succ] <;>
    rw [h15] at * <;> linarith

theorem small_kept_six (sv : List ℚ) (q1 q3 : ℚ) (hs : List.Sorted (· ≤ ·) sv)
    (hlen : sv.length = 6) (hq1 : q1 = SpeedKem.percentile sv 25)
    (hq3 : q3 = SpeedKem.percentile sv 75) :
    3 ≤ sv.countP (fun v =>
      decide (q1 - 1.5 * (q3 - q1) ≤ v ∧ v ≤ q3 + 1.5 * (q3 - q1))) := by
  obtain ⟨a, b, c, d, e, f, rfl⟩ := list_len_six hlen
  rw [percentile_six_25] at hq1
  rw [percentile_six_75] at hq3
  simp only [List.sorted_cons, List.mem_cons, List.not_mem_nil, or_false,
    List.mem_singleton, forall_eq_or_imp, forall_eq, List.sorted_nil, and_true,
    IsEmpty.forall_iff, implies_true] at hs
  obtain ⟨⟨hab, hac, had, hae, haf⟩, ⟨hbc, hbd, hbe, hbf⟩, ⟨hcd, hce, hcf⟩,
    ⟨hde, hdf⟩, hef⟩ := hs
  have h15 : (1.5 : ℚ) = 3/2 := by norm_num
  refine three_le_countP _ _ 1 2 3 (by omega) (by omega) (by norm_num)
    (decide_eq_true ⟨?_, ?_⟩) (decide_eq_true ⟨?_, ?_⟩)
    (decide_eq_true ⟨?_, ?_⟩) <;>
    simp only [List.getD_cons_zero, List.getD_cons_succ] <;>
    rw [h15] at * <;> linarith

theorem iqr_keep_ge_three (values : List ℚ) (h4 : 4 ≤ values.length) :
    3 ≤ (SpeedKem.iqr_filter_indices values).length := by
  have hlen4 : ¬(values.length < 4) := by omega
  unfold SpeedKem.iqr_filter_indices
  rw [if_neg hlen4]
  unfold SpeedKem.iqrKeepList
  by_cases hiqr : SpeedKem.sq3Of values - SpeedKem.sq1Of values = 0
  · rw [if_pos hiqr, List.length_range]
    omega
  · rw [if_neg hiqr]
    rw [filterRangeCount values (fun v =>
      decide (SpeedKem.sq1Of values -
          1.5 * (SpeedKem.sq3Of values - SpeedKem.sq1Of values) ≤ v ∧
        v ≤ SpeedKem.sq3Of values +
          1.5 * (SpeedKem.sq3Of values - SpeedKem.sq1Of values)))]
    have hperm : (pySorted values).Perm values := List.perm_insertionSort _ values
    rw [← hperm.countP_eq]
    have hsort : List.Sorted (· ≤ ·) (pySorted values) :=
      List.sorted_insertionSort _ values
    have hsvlen : (pySorted values).length = values.length :=
      List.length_insertionSort _ values
    have hq1 : SpeedKem.sq1Of values = SpeedKem.percentile (pySorted values) 25 := rfl
    have hq3 : SpeedKem.sq3Of values = SpeedKem.percentile (pySorted values) 75 := rfl
    rcases Nat.lt_or_ge values.length 7 with hn7 | hn7
    · have hn : values.length = 4 ∨ values.length = 5 ∨ values.length = 6 := by omega
      rcases hn with hn | hn | hn
      · exact small_kept_four _ _ _ hsort (hsvlen.trans hn) hq1 hq3
      · exact small_kept_five _ _ _ hsort (hsvlen.trans hn) hq1 hq3
      · exact small_kept_six _ _ _ hsort (hsvlen.trans hn) hq1 hq3
    · exact band_kept _ _ _ hsort (by omega) hq1 hq3

/-- C3: in all three collection/aggregation paths, whenever applying the
interquartile rule would retain fewer than 3 of the raw samples, the mask is
discarded and every sample is kept, so the filtered count equals the raw
count and each filtered metric list is the raw list.  The two memory paths
implement this with an explicit `n_filt < 3` guard; the speed path only
resets an empty keep list, but its IQR filter provably never retains one or
two samples (`iqr_keep_ge_three`), so the antecedent there forces a raw
count below 3, where everything is kept anyway. -/
theorem claim_C3_theorem :
    (∀ insts maxBytes maxHeap extHeap maxStack : List ℚ,
      maxBytes.length = insts.length → maxHeap.length = insts.length →
      extHeap.length = insts.length → maxStack.length = insts.length →
      (CollectMem.iqr_mask maxBytes).countP (fun b => b) < 3 →
      (CollectMem.memRow insts maxBytes maxHeap extHeap maxStack).n_filt =
          (CollectMem.memRow insts maxBytes maxHeap extHeap maxStack).n_raw ∧
      (CollectMem.memRow insts maxBytes maxHeap extHeap maxStack).insts_f = insts ∧
      (CollectMem.memRow insts maxBytes maxHeap extHeap maxStack).maxBytes_f = maxBytes ∧
      (CollectMem.memRow insts maxBytes maxHeap extHeap maxStack).maxHeap_f = maxHeap ∧
      (CollectMem.memRow insts maxBytes maxHeap extHeap maxStack).extHeap_f = extHeap ∧
      (CollectMem.memRow insts maxBytes maxHeap extHeap maxStack).maxStack_f = maxStack) ∧
    (∀ insts maxBytes maxHeap extHeap maxStack : List ℚ,
      insts.length = maxBytes.length → maxHeap.length = maxBytes.length →
      extHeap.length = maxBytes.length → maxStack.length = maxBytes.length →
      (RunAllMem.iqr_mask maxBytes).countP (fun b => b) < 3 →
      (RunAllMem.aggRow insts maxBytes maxHeap extHeap maxStack).n_filt =
          (RunAllMem.aggRow insts maxBytes maxHeap extHeap maxStack).n_raw ∧
      (RunAllMem.aggRow insts maxBytes maxHeap extHeap maxStack).insts_f = insts ∧
      (RunAllMem.aggRow insts maxBytes maxHeap extHeap maxStack).maxBytes_f = maxBytes ∧
      (RunAllMem.aggRow insts maxBytes maxHeap extHeap maxStack).maxHeap_f = maxHeap ∧
      (RunAllMem.aggRow insts maxBytes maxHeap extHeap maxStack).extHeap_f = extHeap ∧
      (RunAllMem.aggRow insts maxBytes maxHeap extHeap maxStack).maxStack_f = maxStack) ∧
    (∀ time cycles its tts : List ℚ,
      cycles.length = time.length → its.length = time.length →
      tts.length = time.length →
      (SpeedKem.iqr_filter_indices time).length < 3 →
      (SpeedKem.speedRow time cycles its tts).n_used =
          (SpeedKem.speedRow time cycles its tts).n_raw ∧
      (SpeedKem.speedRow time cycles its tts).time_f = time ∧
      (SpeedKem.speedRow time cycles its tts).cycles_f = cycles ∧
      (SpeedKem.speedRow time cycles its tts).iterations_f = its ∧
      (SpeedKem.speedRow time cycles its tts).total_time_f = tts) := by
  refine ⟨?_, ?_, ?_⟩
  · intro insts maxBytes maxHeap extHeap maxStack hB hH hE hS hm
    simp only [CollectMem.memRow, if_pos hm]
    refine ⟨trivial, zipKeep_replicate_true insts, ?_, ?_, ?_, ?_⟩
    · rw [← hB]
      exact zipKeep_replicate_true maxBytes
    · rw [← hH]
      exact zipKeep_replicate_true maxHeap
    · rw [← hE]
      exact zipKeep_replicate_true extHeap
    · rw [← hS]
      exact zipKeep_replicate_true maxStack
  · intro insts maxBytes maxHeap extHeap maxStack hI hH hE hS hm
    rw [runAll_iqr_mask_eq] at hm
    simp only [RunAllMem.aggRow, runAll_iqr_mask_eq, if_pos hm]
    refine ⟨trivial, ?_, zipKeep_replicate_true maxBytes, ?_, ?_, ?_⟩
    · rw [← hI]
      exact zipKeep_replicate_true insts
    · rw [← hH]
      exact zipKeep_replicate_true maxHeap
    · rw [← hE]
      exact zipKeep_replicate_true extHeap
    · rw [← hS]
      exact zipKeep_replicate_true maxStack
  · intro time cycles its tts hC hI hT hk
    by_cases h4 : 4 ≤ time.length
    · exact absurd (iqr_keep_ge_three time h4) (by omega)
    · have hsmall : time.length < 4 := by omega
      have hkeq : SpeedKem.iqr_filter_indices time = List.range time.length := by
        unfold SpeedKem.iqr_filter_indices
        rw [if_pos hsmall]
      simp only [SpeedKem.speedRow, hkeq]
      by_cases h0 : time.length = 0
      · have ht : time = [] := List.length_eq_zero.1 h0
        have hc : cycles = [] := List.length_eq_zero.1 (by omega)
        have hi : its = [] := List.length_eq_zero.1 (by omega)
        have htt : tts = [] := List.length_eq_zero.1 (by omega)
        subst ht hc hi htt
        simp
      · have hne : ¬((List.range time.length).isEmpty = true) := by
          rw [List.isEmpty_iff]
          intro hr
          have hlr := congrArg List.length hr
          rw [List.length_range] at hlr
          exact h0 hlr
        rw [if_neg hne]
        refine ⟨by rw [List.length_range], mapGetDRange time, ?_, ?_, ?_⟩
        · rw [← hC]
          exact mapGetDRange cycles
        · rw [← hI]
          exact mapGetDRange its
        · rw [← hT]
          exact mapGetDRange tts

/-- C3 witness: the guard hypotheses discharged on 2-run sample sets, where
the mask retains only 2 samples and every path keeps everything. -/
theorem claim_C3_witness :
    ((CollectMem.memRow [7, 9] [1, 2] [3, 4] [5, 6] [0, 8]).n_filt =
        (CollectMem.memRow [7, 9] [1, 2] [3, 4] [5, 6] [0, 8]).n_raw ∧
      (CollectMem.memRow [7, 9] [1, 2] [3, 4] [5, 6] [0, 8]).insts_f = [7, 9] ∧
      (CollectMem.memRow [7, 9] [1, 2] [3, 4] [5, 6] [0, 8]).maxBytes_f = [1, 2] ∧
      (CollectMem.memRow [7, 9] [1, 2] [3, 4] [5, 6] [0, 8]).maxHeap_f = [3, 4] ∧
      (CollectMem.memRow [7, 9] [1, 2] [3, 4] [5, 6] [0, 8]).extHeap_f = [5, 6] ∧
      (CollectMem.memRow [7, 9] [1, 2] [3, 4] [5, 6] [0, 8]).maxStack_f = [0, 8]) ∧
    ((RunAllMem.aggRow [7, 9] [1, 2] [3, 4] [5, 6] [0, 8]).n_filt =
        (RunAllMem.aggRow [7, 9] [1, 2] [3, 4] [5, 6] [0, 8]).n_raw) ∧
    ((SpeedKem.speedRow [1, 2] [3, 4] [5, 6] [7, 8]).n_used =
        (SpeedKem.speedRow [1, 2] [3, 4] [5, 6] [7, 8]).n_raw ∧
      (SpeedKem.speedRow [1, 2] [3, 4] [5, 6] [7, 8]).time_f = [1, 2]) := by
  have hmask : (CollectMem.iqr_mask [1, 2]).countP (fun b => b) < 3 := by
    have h : CollectMem.iqr_mask [1, 2] = List.replicate 2 true := by
      unfold CollectMem.iqr_mask
      rw [if_pos (by norm_num)]
      norm_num
    rw [h]
    decide
  have hkeep : (SpeedKem.iqr_filter_indices [1, 2]).length < 3 := by
    have h : SpeedKem.iqr_filter_indices [1, 2] = List.range 2 := by
      unfold SpeedKem.iqr_filter_indices
      rw [if_pos (by norm_num)]
      norm_num
    rw [h]
    decide
  refine ⟨claim_C3_theorem.1 [7, 9] [1, 2] [3, 4] [5, 6] [0, 8] rfl rfl rfl rfl hmask,
    (claim_C3_theorem.2.1 [7, 9] [1, 2] [3, 4] [5, 6] [0, 8] rfl rfl rfl rfl
      (by rw [runAll_iqr_mask_eq]; exact hmask)).1, ?_⟩
  have h := claim_C3_theorem.2.2 [1, 2] [3, 4] [5, 6] [7, 8] rfl rfl rfl hkeep
  exact ⟨h.1, h.2.1⟩

/-! ## Claim C4 -/

theorem mem_iqr_filter_lt (values : List ℚ) (j : ℕ)
    (hj : j ∈ SpeedKem.iqr_filter_indices values) : j < values.length := by
  unfold SpeedKem.iqr_filter_indices at hj
  by_cases hlen : values.length < 4
  · rw [if_pos hlen] at hj
    exact List.mem_range.1 hj
  · rw [if_neg hlen] at hj
    unfold SpeedKem.iqrKeepList at hj
    by_cases hiqr : SpeedKem.sq3Of values - SpeedKem.sq1Of values = 0
    · rw [if_pos hiqr] at hj
      exact List.mem_range.1 hj
    · rw [if_neg hiqr] at hj
      exact List.mem_range.1 (List.mem_filter.1 hj).1

theorem mem_applied_keep_lt (values : List ℚ) (j : ℕ)
    (hj : j ∈ SpeedKem.applied_keep values) : j < values.length := by
  unfold SpeedKem.applied_keep at hj
  by_cases he : (SpeedKem.iqr_filter_indices values).isEmpty = true
  · rw [if_pos he] at hj
    exact List.mem_range.1 hj
  · rw [if_neg he] at hj
    exact mem_iqr_filter_lt values j hj

/-- C4: in each flavor the retention decision actually applied is a single
mask computed from the reference metric alone (`maxBytes` for the two memory
aggregation paths, `time_us` for the speed path); every other metric list of
the key is filtered through that same mask, and all filtered lists come out
with the same length `n_filt`/`n_used` — one run is kept or dropped for all
metrics together. -/
theorem claim_C4_theorem :
    (∀ insts maxBytes maxHeap extHeap maxStack : List ℚ,
      maxBytes.length = insts.length → maxHeap.length = insts.length →
      extHeap.length = insts.length → maxStack.length = insts.length →
      (CollectMem.memRow insts maxBytes maxHeap extHeap maxStack).insts_f =
          zipKeep insts (CollectMem.applied_mask maxBytes) ∧
      (CollectMem.memRow insts maxBytes maxHeap extHeap maxStack).maxBytes_f =
          zipKeep maxBytes (CollectMem.applied_mask maxBytes) ∧
      (CollectMem.memRow insts maxBytes maxHeap extHeap maxStack).maxHeap_f =
          zipKeep maxHeap (CollectMem.applied_mask maxBytes) ∧
      (CollectMem.memRow insts maxBytes maxHeap extHeap maxStack).extHeap_f =
          zipKeep extHeap (CollectMem.applied_mask maxBytes) ∧
      (CollectMem.memRow insts maxBytes maxHeap extHeap maxStack).maxStack_f =
          zipKeep maxStack (CollectMem.applied_mask maxBytes) ∧
      (CollectMem.memRow insts maxBytes maxHeap extHeap maxStack).insts_f.length =
          (CollectMem.memRow insts maxBytes maxHeap extHeap maxStack).n_filt ∧
      (CollectMem.memRow insts maxBytes maxHeap extHeap maxStack).maxBytes_f.length =
          (CollectMem.memRow insts maxBytes maxHeap extHeap maxStack).n_filt ∧
      (CollectMem.memRow insts maxBytes maxHeap extHeap maxStack).maxHeap_f.length =
          (CollectMem.memRow insts maxBytes maxHeap extHeap maxStack).n_filt ∧
      (CollectMem.memRow insts maxBytes maxHeap extHeap maxStack).extHeap_f.length =
          (CollectMem.memRow insts maxBytes maxHeap extHeap maxStack).n_filt ∧
      (CollectMem.memRow insts maxBytes maxHeap extHeap maxStack).maxStack_f.length =
          (CollectMem.memRow insts maxBytes maxHeap extHeap maxStack).n_filt) ∧
    (∀ insts maxBytes maxHeap extHeap maxStack : List ℚ,
      insts.length = maxBytes.length → maxHeap.length = maxBytes.length →
      extHeap.length = maxBytes.length → maxStack.length = maxBytes.length →
      (RunAllMem.aggRow insts maxBytes maxHeap extHeap maxStack).insts_f =
          zipKeep insts (CollectMem.applied_mask maxBytes) ∧
      (RunAllMem.aggRow insts maxBytes maxHeap extHeap maxStack).maxBytes_f =
          zipKeep maxBytes (CollectMem.applied_mask maxBytes) ∧
      (RunAllMem.aggRow insts maxBytes maxHeap extHeap maxStack).maxHeap_f =
          zipKeep maxHeap (CollectMem.applied_mask maxBytes) ∧
      (RunAllMem.aggRow insts maxBytes maxHeap extHeap maxStack).extHeap_f =
          zipKeep extHeap (CollectMem.applied_mask maxBytes) ∧
      (RunAllMem.aggRow insts maxBytes maxHeap extHeap maxStack).maxStack_f =
          zipKeep maxStack (CollectMem.applied_mask maxBytes) ∧
      (RunAllMem.aggRow insts maxBytes maxHeap extHeap maxStack).insts_f.length =
          (RunAllMem.aggRow insts maxBytes maxHeap extHeap maxStack).n_filt ∧
      (RunAllMem.aggRow insts maxBytes maxHeap extHeap maxStack).maxBytes_f.length =
          (RunAllMem.aggRow insts maxBytes maxHeap extHeap maxStack).n_filt ∧
      (RunAllMem.aggRow insts maxBytes maxHeap extHeap maxStack).maxHeap_f.length =
          (RunAllMem.aggRow insts maxBytes maxHeap extHeap maxStack).n_filt ∧
      (RunAllMem.aggRow insts maxBytes maxHeap extHeap maxStack).extHeap_f.length =
          (RunAllMem.aggRow insts maxBytes maxHeap extHeap maxStack).n_filt ∧
      (RunAllMem.aggRow insts maxBytes maxHeap extHeap maxStack).maxStack_f.length =
          (RunAllMem.aggRow insts maxBytes maxHeap extHeap maxStack).n_filt) ∧
    (∀ time cycles its tts : List ℚ,
      (SpeedKem.speedRow time cycles its tts).keep = SpeedKem.applied_keep time ∧
      (SpeedKem.speedRow time cycles its tts).time_f =
          (SpeedKem.applied_keep time).map (fun i => time.getD i 0) ∧
      (SpeedKem.speedRow time cycles its tts).cycles_f =
          (SpeedKem.applied_keep time).map (fun i => cycles.getD i 0) ∧
      (SpeedKem.speedRow time cycles its tts).iterations_f =
          (SpeedKem.applied_keep time).map (fun i => its.getD i 0) ∧
      (SpeedKem.speedRow time cycles its tts).total_time_f =
          (SpeedKem.applied_keep time).map (fun i => tts.getD i 0) ∧
      (SpeedKem.speedRow time cycles its tts).time_f.length =
          (SpeedKem.speedRow time cycles its tts).n_used ∧
      (SpeedKem.speedRow time cycles its tts).cycles_f.length =
          (SpeedKem.speedRow time cycles its tts).n_used ∧
      (SpeedKem.speedRow time cycles its tts).iterations_f.length =
          (SpeedKem.speedRow time cycles its tts).n_used ∧
      (SpeedKem.speedRow time cycles its tts).total_time_f.length =
          (SpeedKem.speedRow time cycles its tts).n_used ∧
      (∀ j ∈ (SpeedKem.speedRow time cycles its tts).keep, j < time.length)) := by
  refine ⟨?_, ?_, ?_⟩
  · intro insts maxBytes maxHeap extHeap maxStack hB hH hE hS
    simp only [CollectMem.memRow, CollectMem.applied_mask]
    rw [hB]
    by_cases hc : (CollectMem.iqr_mask maxBytes).countP (fun b => b) < 3
    · simp only [if_pos hc, true_and, and_true]
      have hlen : ∀ l : List ℚ, l.length = insts.length →
          (zipKeep l (List.replicate insts.length true)).length = insts.length := by
        intro l hl
        rw [zipKeep_length l _ (by rw [List.length_replicate, hl]),
          countP_true_replicate]
      exact ⟨hlen insts rfl, hlen maxBytes hB,
        hlen maxHeap hH, hlen extHeap hE, hlen maxStack hS⟩
    · simp only [if_neg hc, true_and, and_true]
      have hmask : (CollectMem.iqr_mask maxBytes).length = insts.length := by
        rw [iqr_mask_length, hB]
      have hlen : ∀ l : List ℚ, l.length = insts.length →
          (zipKeep l (CollectMem.iqr_mask maxBytes)).length =
            (CollectMem.iqr_mask maxBytes).countP (fun b => b) := by
        intro l hl
        exact zipKeep_length l _ (by rw [hmask, hl])
      exact ⟨hlen insts rfl, hlen maxBytes hB,
        hlen maxHeap hH, hlen extHeap hE, hlen maxStack hS⟩
  · intro insts maxBytes maxHeap extHeap maxStack hI hH hE hS
    simp only [RunAllMem.aggRow, CollectMem.applied_mask, runAll_iqr_mask_eq]
    by_cases hc : (CollectMem.iqr_mask maxBytes).countP (fun b => b) < 3
    · simp only [if_pos hc, true_and, and_true]
      have hlen : ∀ l : List ℚ, l.length = maxBytes.length →
          (zipKeep l (List.replicate maxBytes.length true)).length = maxBytes.length := by
        intro l hl
        rw [zipKeep_length l _ (by rw [List.length_replicate, hl]),
          countP_true_replicate]
      exact ⟨hlen insts hI, hlen maxBytes rfl,
        hlen maxHeap hH, hlen extHeap hE, hlen maxStack hS⟩
    · simp only [if_neg hc, true_and, and_true]
      have hmask : (CollectMem.iqr_mask maxBytes).length = maxBytes.length :=
        iqr_mask_length maxBytes
      have hlen : ∀ l : List ℚ, l.length = maxBytes.length →
          (zipKeep l (CollectMem.iqr_mask maxBytes)).length =
            (CollectMem.iqr_mask maxBytes).countP (fun b => b) := by
        intro l hl
        exact zipKeep_length l _ (by rw [hmask, hl])
      exact ⟨hlen insts hI, hlen maxBytes rfl,
        hlen maxHeap hH, hlen extHeap hE, hlen maxStack hS⟩
  · intro time cycles its tts
    refine ⟨rfl, rfl, rfl, rfl, rfl, ?_, ?_, ?_, ?_, ?_⟩
    · simp [SpeedKem.speedRow, SpeedKem.applied_keep]
    · simp [SpeedKem.speedRow, SpeedKem.applied_keep]
    · simp [SpeedKem.speedRow, SpeedKem.applied_keep]
    · simp [SpeedKem.speedRow, SpeedKem.applied_keep]
    · intro j hj
      exact mem_applied_keep_lt time j hj

/-- C4 witness: the memory-flavor length hypotheses discharged on concrete
4-run metric lists where the mask really drops the outlier run. -/
theorem claim_C4_witness :
    (CollectMem.memRow [1, 2, 3, 4] [0, 10, 10, 100] [5, 6, 7, 8] [1, 1, 2, 2]
        [3, 3, 3, 3]).insts_f =
      zipKeep [1, 2, 3, 4] (CollectMem.applied_mask [0, 10, 10, 100]) ∧
    (RunAllMem.aggRow [1, 2, 3, 4] [0, 10, 10, 100] [5, 6, 7, 8] [1, 1, 2, 2]
        [3, 3, 3, 3]).maxStack_f =
      zipKeep [3, 3, 3, 3] (CollectMem.applied_mask [0, 10, 10, 100]) := by
  constructor
  · exact (claim_C4_theorem.1 [1, 2, 3, 4] [0, 10, 10, 100] [5, 6, 7, 8] [1, 1, 2, 2]
      [3, 3, 3, 3] rfl rfl rfl rfl).1
  · exact ((((claim_C4_theorem.2.1 [1, 2, 3, 4] [0, 10, 10, 100] [5, 6, 7, 8] [1, 1, 2, 2]
      [3, 3, 3, 3] rfl rfl rfl rfl).2).2).2).2.1

/-! ## Claims C9 and C10 -/

/-- C9: with zero matching artifact CSVs the aggregator warns, writes no
summary and leaves the directory unchanged (a return, not a crash); with
fewer CSVs than the requested `numRuns` it still writes a summary, consumes
all available files, and raises the fewer-files warning. -/
theorem claim_C9_theorem (dir csvFiles : List String) (numRuns : ℕ) (finalName : String) :
    (csvFiles = [] →
      (RunAllMem.aggregate_mem_results dir csvFiles numRuns finalName).wrote = false ∧
      (RunAllMem.aggregate_mem_results dir csvFiles numRuns finalName).warnedNoCsv = true ∧
      (RunAllMem.aggregate_mem_results dir csvFiles numRuns finalName).dirAfter = dir) ∧
    (csvFiles ≠ [] → csvFiles.length < numRuns →
      (RunAllMem.aggregate_mem_results dir csvFiles numRuns finalName).wrote = true ∧
      (RunAllMem.aggregate_mem_results dir csvFiles numRuns finalName).usedFiles = csvFiles ∧
      (RunAllMem.aggregate_mem_results dir csvFiles numRuns finalName).warnedFewer = true) := by
  constructor
  · intro he
    subst he
    exact ⟨rfl, rfl, rfl⟩
  · intro hne hlt
    have hemp : ¬(csvFiles.isEmpty = true) := by
      simpa [List.isEmpty_iff] using hne
    have htake : csvFiles.take numRuns = csvFiles :=
      List.take_of_length_le (le_of_lt hlt)
    unfold RunAllMem.aggregate_mem_results
    rw [if_neg hemp]
    refine ⟨rfl, htake, ?_⟩
    simp only [htake]
    exact decide_eq_true hlt

/-- C9 witness: both clauses discharged, on an empty match list and on a
single available CSV with `numRuns = 20`. -/
theorem claim_C9_witness :
    (RunAllMem.aggregate_mem_results ["keep.txt"] [] 20 "out.csv").wrote = false ∧
    (RunAllMem.aggregate_mem_results ["a.csv"] ["a.csv"] 20 "out.csv").wrote = true ∧
    (RunAllMem.aggregate_mem_results ["a.csv"] ["a.csv"] 20 "out.csv").usedFiles = ["a.csv"] ∧
    (RunAllMem.aggregate_mem_results ["a.csv"] ["a.csv"] 20 "out.csv").warnedFewer = true := by
  have hA := claim_C9_theorem [ "keep.txt" ] [] 20 "out.csv"
  have hB := claim_C9_theorem [ "a.csv" ] [ "a.csv" ] 20 "out.csv"
  exact ⟨(hA.1 rfl).1, hB.2 (by decide) (by decide)⟩

theorem eraseFold_not_mem (used : List String) (d : List String) (x : String)
    (hx : x ∉ d) :
    x ∉ used.foldl (fun d f => (d.erase f).erase (RunAllMem.jsonPair f)) d := by
  induction used generalizing d with
  | nil => exact hx
  | cons f fs ih =>
    refine ih _ ?_
    intro hmem
    exact hx (List.mem_of_mem_erase (List.mem_of_mem_erase hmem))

theorem eraseFold_mem (used : List String) (d : List String) (g : String)
    (hg : g ∈ d) (h1 : g ∉ used) (h2 : ∀ f ∈ used, g ≠ RunAllMem.jsonPair f) :
    g ∈ used.foldl (fun d f => (d.erase f).erase (RunAllMem.jsonPair f)) d := by
  induction used generalizing d with
  | nil => exact hg
  | cons f fs ih =>
    have hgf : g ≠ f := fun he => h1 (he ▸ List.mem_cons_self f fs)
    have hgj : g ≠ RunAllMem.jsonPair f := h2 f (List.mem_cons_self f fs)
    refine ih _ ?_ (fun hm => h1 (List.mem_cons_of_mem f hm))
      (fun x hx => h2 x (List.mem_cons_of_mem f hx))
    exact (List.mem_erase_of_ne hgj).2 ((List.mem_erase_of_ne hgf).2 hg)

theorem eraseFold_consumed (used : List String) (d : List String) (hd : d.Nodup)
    (f : String) (hf : f ∈ used) :
    f ∉ used.foldl (fun d f => (d.erase f).erase (RunAllMem.jsonPair f)) d ∧
    RunAllMem.jsonPair f ∉
      used.foldl (fun d f => (d.erase f).erase (RunAllMem.jsonPair f)) d := by
  induction used generalizing d with
  | nil => cases hf
  | cons f0 fs ih =>
    rcases List.mem_cons.1 hf with rfl | hf'
    · constructor
      · refine eraseFold_not_mem fs _ f ?_
        intro hmem
        exact hd.not_mem_erase (List.mem_of_mem_erase hmem)
      · refine eraseFold_not_mem fs _ (RunAllMem.jsonPair f) ?_
        exact (hd.erase f).not_mem_erase
    · exact ih _ (((hd.erase f0)).erase _) hf'

/-- C10: in a deduplicated results directory, after a successful aggregation
pass every consumed CSV and its paired JSON metadata file are gone from the
directory, while any file that was neither consumed nor a consumed file's
JSON pair is still there (the freshly written final CSV has a new
timestamped name, hence the `finalName ∉ dir` hypothesis). -/
theorem claim_C10_theorem (dir csvFiles : List String) (numRuns : ℕ) (finalName : String)
    (hnd : dir.Nodup) (hne : csvFiles ≠ []) (hfn : finalName ∉ dir) :
    (∀ f ∈ (RunAllMem.aggregate_mem_results dir csvFiles numRuns finalName).usedFiles,
      f ∉ (RunAllMem.aggregate_mem_results dir csvFiles numRuns finalName).dirAfter ∧
      RunAllMem.jsonPair f ∉
        (RunAllMem.aggregate_mem_results dir csvFiles numRuns finalName).dirAfter) ∧
    (∀ g ∈ dir,
      g ∉ (RunAllMem.aggregate_mem_results dir csvFiles numRuns finalName).usedFiles →
      (∀ f ∈ (RunAllMem.aggregate_mem_results dir csvFiles numRuns finalName).usedFiles,
        g ≠ RunAllMem.jsonPair f) →
      g ∈ (RunAllMem.aggregate_mem_results dir csvFiles numRuns finalName).dirAfter) := by
  have hemp : ¬(csvFiles.isEmpty = true) := by
    simpa [List.isEmpty_iff] using hne
  have hnd1 : (dir ++ [finalName]).Nodup := by
    rw [List.nodup_append]
    refine ⟨hnd, List.nodup_singleton finalName, ?_⟩
    intro x hx hx1
    rw [List.mem_singleton] at hx1
    exact hfn (hx1 ▸ hx)
  unfold RunAllMem.aggregate_mem_results
  rw [if_neg hemp]
  constructor
  · intro f hf
    exact eraseFold_consumed _ _ hnd1 f hf
  · intro g hg h1 h2
    exact eraseFold_mem _ _ g (List.mem_append_left _ hg) h1 h2

/-- C10 witness: one consumed CSV with its JSON pair deleted, an unrelated
file untouched. -/
theorem claim_C10_witness :
    (∀ f ∈ (RunAllMem.aggregate_mem_results
        ["results_kem_mem_a.csv", "results_kem_mem_a.json", "keep.txt"]
        ["results_kem_mem_a.csv"] 1 "results_kem_mem_f.csv").usedFiles,
      f ∉ (RunAllMem.aggregate_mem_results
        ["results_kem_mem_a.csv", "results_kem_mem_a.json", "keep.txt"]
        ["results_kem_mem_a.csv"] 1 "results_kem_mem_f.csv").dirAfter ∧
      RunAllMem.jsonPair f ∉ (RunAllMem.aggregate_mem_results
        ["results_kem_mem_a.csv", "results_kem_mem_a.json", "keep.txt"]
        ["results_kem_mem_a.csv"] 1 "results_kem_mem_f.csv").dirAfter) ∧
    (∀ g ∈ ["results_kem_mem_a.csv", "results_kem_mem_a.json", "keep.txt"],
      g ∉ (RunAllMem.aggregate_mem_results
        ["results_kem_mem_a.csv", "results_kem_mem_a.json", "keep.txt"]
        ["results_kem_mem_a.csv"] 1 "results_kem_mem_f.csv").usedFiles →
      (∀ f ∈ (RunAllMem.aggregate_mem_results
        ["results_kem_mem_a.csv", "results_kem_mem_a.json", "keep.txt"]
        ["results_kem_mem_a.csv"] 1 "results_kem_mem_f.csv").usedFiles,
        g ≠ RunAllMem.jsonPair f) →
      g ∈ (RunAllMem.aggregate_mem_results
        ["results_kem_mem_a.csv", "results_kem_mem_a.json", "keep.txt"]
        ["results_kem_mem_a.csv"] 1 "results_kem_mem_f.csv").dirAfter) :=
  claim_C10_theorem
    ["results_kem_mem_a.csv", "results_kem_mem_a.json", "keep.txt"]
    ["results_kem_mem_a.csv"] 1 "results_kem_mem_f.csv"
    (by decide) (by decide) (by decide)

/-! ## Claim C5 -/

/-- C5: for every `df <= 1` the memory-flavor critical-value lookup returns
`0.0` (in both files that define it); consequently a 2-element sample list
`[a, b]` is summarised with `ci_low = ci_high = mean` (zero margin) while the
reported std is the sample standard deviation `sq (sampleVariance [a, b])`,
whose radicand can be nonzero (it is `2` for `[0, 2]`). -/
theorem claim_C5_theorem :
    (∀ df : ℤ, df ≤ 1 →
      CollectMem.t_critical_95 df = 0 ∧ RunAllMem.t_critical_95 df = 0) ∧
    (∀ (sq : ℚ → ℚ) (a b : ℚ),
      CollectMem.summary_with_ci sq [a, b] =
        some ⟨(a + b) / 2, sq (sampleVariance [a, b]), (a + b) / 2, (a + b) / 2⟩) ∧
    sampleVariance [0, 2] = 2 := by
  refine ⟨?_, ?_, by norm_num [sampleVariance]⟩
  · intro df hdf
    constructor <;>
      · show (if df ≤ 1 then (0 : ℚ) else _) = 0
        rw [if_pos hdf]
  · intro sq a b
    have hm : pyMean [a, b] = some ((a + b) / 2) := by
      simp only [pyMean, List.isEmpty_cons, Bool.false_eq_true, if_false,
        List.sum_cons, List.sum_nil, List.length_cons, List.length_nil,
        Option.some.injEq]
      norm_num
    simp only [CollectMem.summary_with_ci, hm, Option.map_some', List.length_cons,
      List.length_nil, Option.some.injEq]
    norm_num [CollectMem.t_critical_95, CIStat.mk.injEq]

/-- C5 witness: the lookup hypothesis `df <= 1` discharged at `df = 1`. -/
theorem claim_C5_witness :
    CollectMem.t_critical_95 1 = 0 ∧ RunAllMem.t_critical_95 1 = 0 :=
  claim_C5_theorem.1 1 le_rfl

/-! ## Claim C6 -/

/-- C6: whenever the mean of a sample list with fewer than 2 elements exists
(the estimator raises on an empty list, so this means a singleton), the
memory-flavor estimator returns std 0 and both confidence bounds equal to
that mean; in particular `[x]` yields `{mean: x, std: 0, ci_low: x,
ci_high: x}`, and the speed-flavor single-sample branch does the same. -/
theorem claim_C6_theorem :
    (∀ (sq : ℚ → ℚ) (values : List ℚ) (m : ℚ),
      pyMean values = some m → values.length < 2 →
      CollectMem.summary_with_ci sq values = some ⟨m, 0, m, m⟩) ∧
    (∀ (sq : ℚ → ℚ) (x : ℚ),
      CollectMem.summary_with_ci sq [x] = some ⟨x, 0, x, x⟩) ∧
    (∀ (sq : ℚ → ℚ) (x : ℚ), SpeedKem.speedStat sq [x] = ⟨x, 0, x, x⟩) := by
  have hone : ∀ (sq : ℚ → ℚ) (values : List ℚ) (m : ℚ),
      pyMean values = some m → values.length < 2 →
      CollectMem.summary_with_ci sq values = some (⟨m, 0, m, m⟩ : CIStat) := by
    intro sq values m hm hlen
    simp only [CollectMem.summary_with_ci, hm, Option.map_some']
    rw [if_pos hlen]
  have hx : ∀ x : ℚ, pyMean [x] = some x := by
    intro x
    simp only [pyMean, List.isEmpty_cons, Bool.false_eq_true, if_false,
      List.sum_cons, List.sum_nil, List.length_cons, List.length_nil,
      Option.some.injEq]
    norm_num
  refine ⟨hone, ?_, ?_⟩
  · intro sq x
    exact hone sq [x] x (hx x) (by simp)
  · intro sq x
    simp only [SpeedKem.speedStat, List.length_cons, List.length_nil]
    norm_num

/-- C6 witness: the hypotheses discharged at the singleton `[3]`. -/
theorem claim_C6_witness :
    CollectMem.summary_with_ci id [3] = some ⟨3, 0, 3, 3⟩ :=
  claim_C6_theorem.1 id [3] 3 (by simp [pyMean]) (by simp)

/-! ## Claim C7 -/

/-- C7: with fewer than 4 samples none of the three outlier-mask functions
applies the interquartile rule: both memory-flavor masks are the all-true
mask of length `n` and the speed-flavor filter keeps all `n` indices. -/
theorem claim_C7_theorem (values : List ℚ) (h : values.length < 4) :
    CollectMem.iqr_mask values = List.replicate values.length true ∧
    RunAllMem.iqr_mask values = List.replicate values.length true ∧
    SpeedKem.iqr_filter_indices values = List.range values.length := by
  refine ⟨?_, ?_, ?_⟩
  · unfold CollectMem.iqr_mask
    rw [if_pos h]
  · rw [runAll_iqr_mask_eq]
    unfold CollectMem.iqr_mask
    rw [if_pos h]
  · unfold SpeedKem.iqr_filter_indices
    rw [if_pos h]

/-- C7 witness: the hypothesis `n < 4` discharged at a 3-element list. -/
theorem claim_C7_witness :
    CollectMem.iqr_mask [1, 2, 30] = List.replicate 3 true ∧
    RunAllMem.iqr_mask [1, 2, 30] = List.replicate 3 true ∧
    SpeedKem.iqr_filter_indices [1, 2, 30] = List.range 3 :=
  claim_C7_theorem [1, 2, 30] (by decide)
